import Mathlib

/-
Verification of the Privacy-Tiered Document Intelligence Pipeline
(src/CORE-PLATFORM/chromadb_intelligence_engine.py).

The embedding follows the source file closely:
* `PrivacyTier`, the pattern matchers of `_init_privacy_detector`, and
  `classify_privacy_tier` are transcribed directly from the Python code;
  the regular expressions of the detector are hand-compiled into executable
  matchers over `List Char` with `re.search` existence semantics (a pattern
  matches somewhere in the text) and the case-insensitivity of
  `re.IGNORECASE`.
* `_chunk_text` is transcribed with its exact window arithmetic; the
  `while` loop is modelled with explicit fuel (one unit per iteration);
  the progress guard `start = max(start + 1, end - chunk_overlap)` makes
  `text length` units of fuel always sufficient, which is proved below.
* the persistent vector collection (ChromaDB) and the embedding, NLP and
  hashing providers are external collaborators of the repository; they are
  modelled from the contracts in the specification and are marked as such
  in their doc comments.
-/

/-- The 3-tier privacy classification enum of the source
(`PrivacyTier.PUBLIC`, `PrivacyTier.BUSINESS`, `PrivacyTier.PERSONAL`,
declared in this order, which is also the iteration order of the
per-tier collection dictionary). -/
inductive PrivacyTier where
  | PUBLIC
  | BUSINESS
  | PERSONAL
deriving DecidableEq, Repr

/-- Word character of the `\b` assertions in the source regexes: ASCII
letters, digits and underscore (all inputs of interest are ASCII). -/
def isWordChar (c : Char) : Bool :=
  c.isAlphanum || c == '_'

/-- Word-character test on an optional character; the absent character at
either end of the text counts as a non-word character. -/
def isWordOpt : Option Char → Bool
  | some c => isWordChar c
  | none => false

/-- The `\b` assertion: exactly one side of the position holds a word
character. -/
def wordBoundary (l r : Option Char) : Bool :=
  isWordOpt l != isWordOpt r

/-- Case-insensitive comparison of an input character `c` against a
lowercase pattern literal `p` (the source compiles every pattern with
`re.IGNORECASE`). -/
def ciEq (p c : Char) : Bool :=
  c == p || (c.isUpper && c.toNat + 32 == p.toNat)

/-- Case-insensitive literal prefix test: the pattern characters `ps`
appear (up to case) at the head of the input. -/
def startsCI : List Char → List Char → Bool
  | [], _ => true
  | _ :: _, [] => false
  | p :: ps, c :: cs => ciEq p c && startsCI ps cs

/-- Python whitespace class `\s` (ASCII part), also used for `str.strip`. -/
def pySpace (c : Char) : Bool :=
  c == ' ' || c == '\t' || c == '\n' || c == '\r' || c == '\x0b' || c == '\x0c'

/-- Generic `re.search` driver: try the position matcher `m` at every
position of the text, keeping track of the previous character for the
`\b` assertions.  The position after the final character is tried too. -/
def searchFrom (m : Option Char → List Char → Bool) : Option Char → List Char → Bool
  | prev, [] => m prev []
  | prev, c :: rest => m prev (c :: rest) || searchFrom m (some c) rest

/-- Run a position matcher against a whole string, like `pattern.search`. -/
def searchPat (m : Option Char → List Char → Bool) (text : String) : Bool :=
  searchFrom m none text.data

/-- Matcher of the SSN pattern of the Personal tier:
`\b\d{3}-\d{2}-\d{4}\b`. -/
def matchSSN (prev : Option Char) (cs : List Char) : Bool :=
  match cs with
  | a :: b :: c :: '-' :: d :: e :: '-' :: f :: g :: h :: i :: rest =>
    !isWordOpt prev && a.isDigit && b.isDigit && c.isDigit &&
      d.isDigit && e.isDigit &&
      f.isDigit && g.isDigit && h.isDigit && i.isDigit &&
      !isWordOpt rest.head?
  | _ => false

/-- Character class `[A-Za-z0-9._%+-]` of the email pattern. -/
def emailLocalChar (c : Char) : Bool :=
  c.isAlphanum || c == '.' || c == '_' || c == '%' || c == '+' || c == '-'

/-- Character class `[A-Za-z0-9.-]` of the email pattern. -/
def emailDomainChar (c : Char) : Bool :=
  c.isAlphanum || c == '.' || c == '-'

/-- Character class `[A-Z|a-z]` of the email pattern (the source class
literally contains the bar character). -/
def emailTldChar (c : Char) : Bool :=
  c.isAlpha || c == '|'

/-- After at least two TLD characters have been consumed (`last` being the
most recent), either stop at a `\b` boundary or consume one more TLD
character. -/
def emailTldRest (last : Char) : List Char → Bool
  | [] => isWordChar last
  | c :: rest => (isWordChar last != isWordChar c) || (emailTldChar c && emailTldRest c rest)

/-- `[A-Z|a-z]{2,}\b`: two TLD characters, then `emailTldRest`. -/
def emailTldStart : List Char → Bool
  | c1 :: c2 :: rest => emailTldChar c1 && emailTldChar c2 && emailTldRest c2 rest
  | _ => false

/-- `[A-Za-z0-9.-]+\.[A-Z|a-z]{2,}\b`: one or more domain characters, a
literal dot, then the TLD part. -/
def emailAfterAt : List Char → Bool
  | [] => false
  | c :: rest =>
    emailDomainChar c &&
      ((match rest with
        | '.' :: r => emailTldStart r
        | _ => false) ||
       emailAfterAt rest)

/-- `[A-Za-z0-9._%+-]+@...`: one or more local-part characters, then the
at sign and the domain part. -/
def emailLocalPart : List Char → Bool
  | [] => false
  | c :: rest =>
    emailLocalChar c &&
      ((match rest with
        | '@' :: r => emailAfterAt r
        | _ => false) ||
       emailLocalPart rest)

/-- Matcher of the email pattern of the Personal tier:
`\b[A-Za-z0-9._%+-]+@[A-Za-z0-9.-]+\.[A-Z|a-z]{2,}\b`. -/
def matchEmail (prev : Option Char) (cs : List Char) : Bool :=
  wordBoundary prev cs.head? && emailLocalPart cs

/-- Four consecutive digits, returning the rest of the input. -/
def fourDigits : List Char → Option (List Char)
  | a :: b :: c :: d :: rest =>
    if a.isDigit && b.isDigit && c.isDigit && d.isDigit then some rest else none
  | _ => none

/-- Three consecutive digits, returning the rest of the input. -/
def threeDigits : List Char → Option (List Char)
  | a :: b :: c :: rest =>
    if a.isDigit && b.isDigit && c.isDigit then some rest else none
  | _ => none

/-- `[-\s]?` then a continuation: the optional separator of the
credit-card pattern. -/
def sepOpt (k : List Char → Bool) (cs : List Char) : Bool :=
  k cs ||
    (match cs with
     | c :: rest => (c == '-' || pySpace c) && k rest
     | [] => false)

/-- Matcher of the credit-card pattern of the Personal tier:
`\b\d{4}[-\s]?\d{4}[-\s]?\d{4}[-\s]?\d{4}\b`. -/
def matchCC (prev : Option Char) (cs : List Char) : Bool :=
  !isWordOpt prev &&
    (match fourDigits cs with
     | some r1 =>
       sepOpt (fun r2 =>
         match fourDigits r2 with
         | some r3 =>
           sepOpt (fun r4 =>
             match fourDigits r4 with
             | some r5 =>
               sepOpt (fun r6 =>
                 match fourDigits r6 with
                 | some r7 => !isWordOpt r7.head?
                 | none => false) r5
             | none => false) r3
         | none => false) r1
     | none => false)

/-- Matcher of the credential-phrase pattern of the Personal tier:
`\bpassword|secret|private key|confidential\b`.  The alternation is at the
top level of the regex, so `\b` attaches only to the first branch and the
trailing `\b` only to the last. -/
def matchPw (prev : Option Char) (cs : List Char) : Bool :=
  (!isWordOpt prev && startsCI "password".data cs) ||
  startsCI "secret".data cs ||
  startsCI "private key".data cs ||
  (startsCI "confidential".data cs && !isWordOpt ((cs.drop 12).head?))

/-- `[-.]?` then a continuation: the optional separator of the phone
pattern. -/
def sepDotOpt (k : List Char → Bool) (cs : List Char) : Bool :=
  k cs ||
    (match cs with
     | c :: rest => (c == '-' || c == '.') && k rest
     | [] => false)

/-- `\d{3}[-.]?\d{3}[-.]?\d{4}\b`: the digit tail of the phone pattern. -/
def phoneDigits (cs : List Char) : Bool :=
  match threeDigits cs with
  | some r1 =>
    sepDotOpt (fun r2 =>
      match threeDigits r2 with
      | some r3 =>
        sepDotOpt (fun r4 =>
          match fourDigits r4 with
          | some r5 => !isWordOpt r5.head?
          | none => false) r3
      | none => false) r1
  | none => false

/-- `.*` then a continuation; the dot of the source regex does not match a
newline (no DOTALL flag). -/
def dotStarThen (k : List Char → Bool) : List Char → Bool
  | [] => k []
  | c :: rest => k (c :: rest) || (c != '\n' && dotStarThen k rest)

/-- Matcher of the phone pattern of the Personal tier:
`\bphone.*\d{3}[-.]?\d{3}[-.]?\d{4}\b`. -/
def matchPhone (prev : Option Char) (cs : List Char) : Bool :=
  !isWordOpt prev && startsCI "phone".data cs && dotStarThen phoneDigits (cs.drop 5)

/-- Matcher of the first Business pattern:
`\bconfidential|proprietary|internal only\b`. -/
def matchBizConf (prev : Option Char) (cs : List Char) : Bool :=
  (!isWordOpt prev && startsCI "confidential".data cs) ||
  startsCI "proprietary".data cs ||
  (startsCI "internal only".data cs && !isWordOpt ((cs.drop 13).head?))

/-- Separator class `[_\s]` of the second Business pattern. -/
def sepUnd (c : Char) : Bool :=
  c == '_' || pySpace c

/-- Matcher of the second Business pattern:
`\bapi[_\s]key|access[_\s]token\b`. -/
def matchBizApi (prev : Option Char) (cs : List Char) : Bool :=
  (!isWordOpt prev && startsCI "api".data cs &&
    (match cs.drop 3 with
     | c :: rest => sepUnd c && startsCI "key".data rest
     | [] => false)) ||
  (startsCI "access".data cs &&
    (match cs.drop 6 with
     | c :: rest => sepUnd c && startsCI "token".data rest && !isWordOpt ((rest.drop 5).head?)
     | [] => false))

/-- Matcher of the third Business pattern:
`\bclient|customer|revenue|profit\b`. -/
def matchBizClient (prev : Option Char) (cs : List Char) : Bool :=
  (!isWordOpt prev && startsCI "client".data cs) ||
  startsCI "customer".data cs ||
  startsCI "revenue".data cs ||
  (startsCI "profit".data cs && !isWordOpt ((cs.drop 6).head?))

/-- Matcher of the fourth Business pattern:
`\bcontract|agreement|deal\b`. -/
def matchBizContract (prev : Option Char) (cs : List Char) : Bool :=
  (!isWordOpt prev && startsCI "contract".data cs) ||
  startsCI "agreement".data cs ||
  (startsCI "deal".data cs && !isWordOpt ((cs.drop 4).head?))

/-- Some Personal-tier pattern of `_init_privacy_detector` matches the
text, the patterns tried in their declaration order exactly as the loop
in `classify_privacy_tier` does. -/
def personalMatch (text : String) : Bool :=
  searchPat matchSSN text || searchPat matchEmail text || searchPat matchCC text ||
    searchPat matchPw text || searchPat matchPhone text

/-- Some Business-tier pattern of `_init_privacy_detector` matches the
text. -/
def businessMatch (text : String) : Bool :=
  searchPat matchBizConf text || searchPat matchBizApi text ||
    searchPat matchBizClient text || searchPat matchBizContract text

/-- Python slice `s[:n]` for a nonnegative count. -/
def pyTakeStr (s : String) (n : Nat) : String :=
  String.mk (s.data.take n)

/-- `classify_privacy_tier` of the source.  `entCount` models the external
spaCy pipeline: the number of entities of the sensitive categories found
in the first 1000 characters of the text (the source computes
`sum(1 for ent in doc.ents if ent.label_ in sensitive_entities)` over
`nlp_pipeline(text[:1000])`).  The statistics counters of the source are
process-local telemetry and are not modelled; the local variable
`text_lower` of the source is never used by it. -/
def classify_privacy_tier (entCount : String → Nat) (text : String) : PrivacyTier :=
  if personalMatch text then PrivacyTier.PERSONAL
  else if businessMatch text then PrivacyTier.BUSINESS
  else if entCount (pyTakeStr text 1000) > 5 then PrivacyTier.BUSINESS
  else PrivacyTier.PUBLIC

/-- Python `str.strip`: remove the whitespace characters from both ends
(ASCII whitespace; the processed documents are ASCII). -/
def pyStrip (l : List Char) : List Char :=
  ((l.dropWhile pySpace).reverse.dropWhile pySpace).reverse

/-- `text.rfind(chr(46), s, e)` of the chunker: the greatest index `i`
with `s <= i < e` holding a full stop, or `-1` when there is none. -/
def rfindDot (cs : List Char) (s e : Nat) : Int :=
  ((List.range e).drop s).foldl
    (fun acc i => if cs.getD i ' ' == '.' then (i : Int) else acc) (-1)

/-- `end = min(start + chunk_size, text_len)` of the chunker. -/
def chunkEndRaw (L : Nat) (size : Int) (start : Nat) : Int :=
  min ((start : Int) + size) (L : Int)

/-- The window end after the sentence-boundary adjustment of the chunker:
when the raw end falls before the end of the text and the last full stop
of the window lies strictly beyond `start + chunk_size // 2`, the window
is cut just after that full stop (`//` is Python floor division). -/
def chunkEndAdj (cs : List Char) (size : Int) (start : Nat) : Nat :=
  if chunkEndRaw cs.length size start < (cs.length : Int) then
    if rfindDot cs start (chunkEndRaw cs.length size start).toNat >
        (start : Int) + Int.fdiv size 2 then
      (rfindDot cs start (chunkEndRaw cs.length size start).toNat + 1).toNat
    else (chunkEndRaw cs.length size start).toNat
  else (chunkEndRaw cs.length size start).toNat

/-- `start = max(start + 1, end - chunk_overlap)` of the chunker, the
progress guard of the loop. -/
def nextStart (cs : List Char) (size overlap : Int) (start : Nat) : Nat :=
  (max ((start : Int) + 1) ((chunkEndAdj cs size start : Int) - overlap)).toNat

/-- `text[start:end].strip()` of the chunker. -/
def chunkSlice (cs : List Char) (size : Int) (start : Nat) : List Char :=
  pyStrip ((cs.drop start).take (chunkEndAdj cs size start - start))

/-- The `while start < text_len` loop of `_chunk_text`, with explicit fuel
(one unit per iteration).  The progress theorem below shows that `start`
grows by at least one per iteration, so `text_len` units of fuel always
reach the exit of the loop; `chunk_text` supplies exactly that much. -/
def chunkLoop (cs : List Char) (size overlap : Int) : Nat → Nat → List String
  | 0, _ => []
  | fuel + 1, start =>
    if start < cs.length then
      (if chunkSlice cs size start = [] then []
       else [String.mk (chunkSlice cs size start)]) ++
        chunkLoop cs size overlap fuel (nextStart cs size overlap start)
    else []

/-- `_chunk_text` of the source: character-count chunking with overlap and
sentence-boundary adjustment.  `size` and `overlap` are the configuration
values `chunk_size` and `chunk_overlap` (defaults 512 and 50). -/
def chunk_text (text : String) (size overlap : Int) : List String :=
  chunkLoop text.data size overlap text.data.length 0

/-- The start positions the chunk loop visits on a text free of full
stops: the sentence-boundary adjustment never fires, so the loop is a
pure recurrence on the window arithmetic; used to settle the concrete
chunk-count scenario. -/
def plainNext (L : Nat) (size overlap : Int) (start : Nat) : Nat :=
  (max ((start : Int) + 1) (((chunkEndRaw L size start).toNat : Int) - overlap)).toNat

/-- The list of start positions visited by the chunk loop on a text free
of full stops, with the same fuel discipline as `chunkLoop`. -/
def plainChunkStarts (L : Nat) (size overlap : Int) : Nat → Nat → List Nat
  | 0, _ => []
  | fuel + 1, start =>
    if start < L then
      start :: plainChunkStarts L size overlap fuel (plainNext L size overlap start)
    else []

/-- One match attempt of `re.findall` for the link pattern
`\[\[([^\]]+)\]\]`, at a position known to start with two open brackets
(already consumed): take the maximal run of non-bracket characters; the
match succeeds when the run is nonempty and two closing brackets follow,
returning the captured run and the remainder after the match. -/
def takeLink (cs : List Char) : Option (List Char × List Char) :=
  if (cs.takeWhile (fun c => c != ']')).isEmpty then none
  else
    match cs.dropWhile (fun c => c != ']') with
    | ']' :: ']' :: r => some (cs.takeWhile (fun c => c != ']'), r)
    | _ => none

/-- `re.findall` for the link pattern: scan left to right; at a double
open bracket attempt a match, continuing after a successful match or one
character further on failure. -/
def findLinks : List Char → List String
  | [] => []
  | '[' :: '[' :: rest =>
    match h : takeLink rest with
    | some (run, r) => String.mk run :: findLinks r
    | none => findLinks ('[' :: rest)
  | _ :: rest => findLinks rest
termination_by cs => cs.length
decreasing_by
  · simp only [List.length_cons]
    unfold takeLink at h
    split at h
    · exact absurd h (by simp)
    · split at h
      · next heq =>
        have hd : (rest.dropWhile (fun c => c != ']')).length ≤ rest.length :=
          (List.dropWhile_sublist _).length_le
        rw [heq] at hd
        simp only [Option.some.injEq, Prod.mk.injEq] at h
        obtain ⟨-, h2⟩ := h
        subst h2
        simp only [List.length_cons] at hd
        omega
      · exact absurd h (by simp)
  · simp
  · simp

/-- `_extract_obsidian_links` of the source:
`list(set(re.findall(link_pattern, text)))`.  The iteration order of a
Python `set` is unspecified (hash order), so the conversion back to a
list is modelled by `List.dedup`, which keeps the same elements with all
duplicates removed; no property below depends on the order chosen. -/
def extract_obsidian_links (text : String) : List String :=
  (findLinks text.data).dedup

/-- A chunk record persisted in a tier collection, as assembled by
`process_document` for `collection.add`: the embedding vector, the chunk
text, and the metadata fields computed by the source (the timestamp comes
from the clock and is not modelled).  Embedding vectors are opaque to the
pipeline and modelled as integer lists. -/
structure ChunkEntry where
  embedding : List Int
  document : String
  source_file : String
  chunk_index : Nat
  content_hash : String
deriving DecidableEq

/-- The tiered store: one collection per privacy tier, each a list of
records keyed by chunk identifier. -/
abbrev Store := PrivacyTier → List (String × ChunkEntry)

/-- Modelled from the spec: the upsert of the persistent vector collection
primitive (spec 4.4 and 6) — storing under an existing chunk identifier
replaces the prior entry in place, otherwise the record is appended.  The
collection itself is ChromaDB, an external collaborator of the
repository. -/
def upsertEntry (l : List (String × ChunkEntry)) (k : String) (v : ChunkEntry) :
    List (String × ChunkEntry) :=
  if l.any (fun p => p.1 == k) then
    l.map (fun p => if p.1 == k then (k, v) else p)
  else l ++ [(k, v)]

/-- `collection.add(embeddings, documents, ids, metadatas)` on one tier
collection: store every id paired with its record, via the upsert of the
collection primitive. -/
def collAdd (l : List (String × ChunkEntry)) (items : List (String × ChunkEntry)) :
    List (String × ChunkEntry) :=
  items.foldl (fun acc p => upsertEntry acc p.1 p.2) l

/-- The document metadata assembled by `process_document`.  The fields
`file_type`, `size_bytes`, `processed_timestamp`, `embedding_model`,
`language`, `sentiment_score`, `topics` and `entities` of the source
dataclass come from the filesystem, the clock and the external embedding
and NLP providers and are not modelled. -/
structure DocumentMetadata where
  file_path : String
  content_hash : String
  privacy_tier : PrivacyTier
  chunk_count : Nat
  obsidian_links : List String
deriving DecidableEq

/-- `chunk_ids = [f"{content_hash}_{i}" for i in range(len(chunks))]` of
`process_document`: the deterministic chunk identifiers, the parent
content hash joined with the ordinal. -/
def chunkIds (content_hash : String) (n : Nat) : List String :=
  (List.range n).map (fun i => content_hash ++ "_" ++ toString i)

/-- The per-chunk records `process_document` hands to `collection.add`,
one per chunk index: the chunk embedding, the chunk text, and the
metadata fields of the source. -/
def ingestEntries (encode : String → List Int) (file_path content_hash : String)
    (chunks : List String) : List ChunkEntry :=
  (List.range chunks.length).map (fun i =>
    ({ embedding := encode (chunks.getD i ""), document := chunks.getD i "",
       source_file := file_path, chunk_index := i,
       content_hash := content_hash } : ChunkEntry))

/-- `process_document` of the source, the single-document ingestion path:
extract text (the extracted text is the `text` argument; extraction is an
external collaborator returning the empty string on unsupported input),
hash it, classify the tier, chunk, embed every chunk, store all chunks
under the assigned tier with identifiers `hash_i`, and assemble the
metadata record.  `hash` models `hashlib.sha256(...).hexdigest()`,
`entCount` the spaCy entity counter, and `encode` the sentence-transformer
embedding — all external providers, used only as black boxes exactly as
the source does. -/
def process_document (hash : String → String) (entCount : String → Nat)
    (encode : String → List Int) (size overlap : Int) (store : Store)
    (file_path : String) (text : String) (vault : Option String) :
    DocumentMetadata × Store :=
  ({ file_path := file_path, content_hash := hash text,
     privacy_tier := classify_privacy_tier entCount text,
     chunk_count := (chunk_text text size overlap).length,
     obsidian_links := match vault with
       | some _ => extract_obsidian_links text
       | none => [] },
   fun t =>
     if t = classify_privacy_tier entCount text then
       collAdd (store t)
         ((chunkIds (hash text) (chunk_text text size overlap).length).zip
           (ingestEntries encode file_path (hash text) (chunk_text text size overlap)))
     else store t)

/-- A search result assembled by `semantic_search` from the parallel
arrays of the collection query.  Distances are opaque ordered scores
(lower is more similar), modelled as integers. -/
structure SearchResult where
  document : String
  distance : Int
  id : String
deriving DecidableEq

/-- The collections searched by `semantic_search`: the single filtered
tier, or all collections in the iteration order of the tier dictionary
(the declaration order of the enum). -/
def tiersToSearch : Option PrivacyTier → List PrivacyTier
  | some t => [t]
  | none => [PrivacyTier.PUBLIC, PrivacyTier.BUSINESS, PrivacyTier.PERSONAL]

/-- Modelled from the spec: `collection.query(query_embeddings, n_results)`
of the vector collection primitive (spec 6) returns the `n_results`
nearest stored neighbors in ascending distance order; `coll` is the full
ascending neighbor list of the collection for the query embedding, of
which the primitive returns the first `n`. -/
def collQuery (coll : List SearchResult) (n : Int) : List SearchResult :=
  coll.take n.toNat

/-- Stable insertion of a result into a distance-sorted list: the new
element goes after every element with a strictly smaller distance and
before the first element that does not compare smaller, so equal
distances keep their existing order. -/
def insertByDist (r : SearchResult) : List SearchResult → List SearchResult
  | [] => [r]
  | x :: xs => if x.distance < r.distance then x :: insertByDist r xs else r :: x :: xs

/-- `results.sort(key=lambda x: x[dist])` of the source: Python list sort
is a stable sort by the distance key, and any two stable sorts by the
same key agree on every input, so it is modelled by stable insertion
sort. -/
def pySort : List SearchResult → List SearchResult
  | [] => []
  | r :: rs => insertByDist r (pySort rs)

/-- Python slice `l[:k]` for an arbitrary integer bound: a nonnegative
bound keeps the first `k` elements; a negative bound stops `|k|` elements
before the end. -/
def pySliceTo (l : List SearchResult) (k : Int) : List SearchResult :=
  if 0 ≤ k then l.take k.toNat else l.take ((l.length : Int) + k).toNat

/-- `semantic_search` of the source: embed the query once, query every
target collection with `n_results = min(limit, 100)`, append the per-tier
results in tier order, sort the concatenation by distance with the stable
list sort, and return `results[:limit]`.  `encode` models the external
embedding provider and `colls` the per-tier collections as query maps
from an embedding to the ascending neighbor list. -/
def semantic_search (encode : String → List Int)
    (colls : PrivacyTier → List Int → List SearchResult)
    (query : String) (filt : Option PrivacyTier) (limit : Int) : List SearchResult :=
  pySliceTo
    (pySort ((tiersToSearch filt).foldl
      (fun acc t => acc ++ collQuery (colls t (encode query)) (min limit 100)) []))
    limit

/-- The per-tier concatenation which `semantic_search` builds by folding
appends over the target tiers. -/
def searchPool (encode : String → List Int)
    (colls : PrivacyTier → List Int → List SearchResult)
    (query : String) (filt : Option PrivacyTier) (limit : Int) : List SearchResult :=
  ((tiersToSearch filt).map (fun t => collQuery (colls t (encode query)) (min limit 100))).flatten

/-- A concrete chunk record used by closed witness statements. -/
def sampleEntry0 : ChunkEntry :=
  { embedding := [], document := "", source_file := "", chunk_index := 0, content_hash := "" }

/-- A second concrete chunk record used by closed witness statements. -/
def sampleEntry1 : ChunkEntry :=
  { embedding := [1], document := "x", source_file := "y", chunk_index := 1, content_hash := "z" }

/-- A concrete search result used by closed witness statements. -/
def sampleResult : SearchResult :=
  { document := "doc", distance := 3, id := "id0" }

/-- The chunk loop advances its start by at least one character each
iteration, whatever the configuration: the progress guard takes a
maximum with `start + 1`. -/
theorem le_nextStart (cs : List Char) (size overlap : Int) (start : Nat) :
    start + 1 ≤ nextStart cs size overlap start := by
  unfold nextStart
  generalize (chunkEndAdj cs size start : Int) - overlap = x
  omega

/-- Any two fuel values at least `length - start` give the chunk loop the
same result: the loop exits before either runs out, so the fuel
discipline of `chunk_text` is faithful to the unbounded `while` loop of
the source. -/
theorem chunkLoop_fuel_eq (cs : List Char) (size overlap : Int) :
    ∀ f1 f2 start, cs.length - start ≤ f1 → cs.length - start ≤ f2 →
      chunkLoop cs size overlap f1 start = chunkLoop cs size overlap f2 start := by
  intro f1
  induction f1 with
  | zero =>
    intro f2 start h1 _
    cases f2 with
    | zero => rfl
    | succ f2 =>
      simp only [chunkLoop]
      rw [if_neg (by omega)]
  | succ f1 ih =>
    intro f2 start h1 h2
    cases f2 with
    | zero =>
      simp only [chunkLoop]
      rw [if_neg (by omega)]
    | succ f2 =>
      simp only [chunkLoop]
      by_cases hlt : start < cs.length
      · rw [if_pos hlt, if_pos hlt]
        have hp := le_nextStart cs size overlap start
        congr 1
        exact ih f2 (nextStart cs size overlap start) (by omega) (by omega)
      · rw [if_neg hlt, if_neg hlt]

/-- Every string the chunk loop emits is nonempty: a window is appended
only when its stripped text is a nonempty character list. -/
theorem ne_empty_of_mem_chunkLoop (cs : List Char) (size overlap : Int) :
    ∀ fuel start s, s ∈ chunkLoop cs size overlap fuel start → s ≠ "" := by
  intro fuel
  induction fuel with
  | zero => intro start s hs; simp [chunkLoop] at hs
  | succ fuel ih =>
    intro start s hs
    simp only [chunkLoop] at hs
    by_cases hlt : start < cs.length
    · rw [if_pos hlt] at hs
      rcases List.mem_append.mp hs with h | h
      · by_cases hc : chunkSlice cs size start = []
        · rw [if_pos hc] at h
          simp at h
        · rw [if_neg hc] at h
          simp only [List.mem_singleton] at h
          subst h
          intro hcon
          exact hc (congrArg String.data hcon)
      · exact ih _ s h
    · rw [if_neg hlt] at hs
      simp at hs

/-- The chunk loop emits at most one chunk per iteration, so at most
`fuel` chunks in total. -/
theorem chunkLoop_length_le (cs : List Char) (size overlap : Int) :
    ∀ fuel start, (chunkLoop cs size overlap fuel start).length ≤ fuel := by
  intro fuel
  induction fuel with
  | zero => intro start; simp [chunkLoop]
  | succ fuel ih =>
    intro start
    simp only [chunkLoop]
    by_cases hlt : start < cs.length
    · rw [if_pos hlt]
      rw [List.length_append]
      have h1 : (if chunkSlice cs size start = [] then []
          else [String.mk (chunkSlice cs size start)]).length ≤ 1 := by
        split <;> simp
      have h2 := ih (nextStart cs size overlap start)
      omega
    · rw [if_neg hlt]
      simp

/-- C9: for every text and every integer configuration with
`chunk_size >= 1` — including `overlap >= chunk_size` and negative
`overlap`, which violate the precondition stated by the spec — the
chunker terminates and returns a finite chunk list, because the window
start strictly increases by at least one character per iteration: the
start after one iteration is at least `start + 1`, any fuel of at least
`length - start` units lets the loop run to its exit, and the resulting
list holds at most one chunk per character of the text. -/
theorem chunk_text_terminates (cs : List Char) (size overlap : Int) (hsize : 1 ≤ size) :
    (∀ start, start < cs.length → start + 1 ≤ nextStart cs size overlap start) ∧
    (∀ start fuel, cs.length - start ≤ fuel →
      chunkLoop cs size overlap fuel start =
        chunkLoop cs size overlap (cs.length - start) start) ∧
    (chunk_text (String.mk cs) size overlap).length ≤ cs.length := by
  refine ⟨fun start _ => le_nextStart cs size overlap start, ?_, ?_⟩
  · intro start fuel hf
    exact chunkLoop_fuel_eq cs size overlap fuel (cs.length - start) start hf (by omega)
  · exact chunkLoop_length_le cs size overlap cs.length 0

theorem chunk_text_terminates_witness :
    0 + 1 ≤ nextStart "ab".data 1 0 0 ∧
    chunkLoop "ab".data 1 0 5 0 = chunkLoop "ab".data 1 0 ("ab".data.length - 0) 0 ∧
    (chunk_text (String.mk "ab".data) 1 0).length ≤ "ab".data.length := by
  have h := chunk_text_terminates "ab".data 1 0 (by decide)
  exact ⟨h.1 0 (by decide), h.2.1 0 5 (by decide), h.2.2⟩

/-- C5 counterexample: with `target_size = 2` and `overlap = 5` the
precondition `target_size > overlap >= 0` of the claim is violated, yet
`_chunk_text` performs no validation and returns an ordinary chunk
sequence — there is no InvalidConfiguration failure anywhere in its
code path. -/
theorem chunk_text_no_validation_counterexample :
    chunk_text "abcd" 2 5 = ["ab", "bc", "cd", "d"] ∧
    (["ab", "bc", "cd", "d"] : List String) ≠ [] := by
  exact ⟨by decide, by decide⟩

/-- C5 amended: `_chunk_text` performs no validation of
`target_size`/`overlap` and raises no InvalidConfiguration error: for
every text and every integer configuration — including
`overlap >= target_size` and `overlap < 0` — it returns a chunk
sequence in which every chunk is nonempty and which holds at most one
chunk per character of the text (the progress guard
`start = max(start + 1, end - overlap)` rules out divergence). -/
theorem chunk_text_no_validation (text : String) (size overlap : Int) :
    (∀ s ∈ chunk_text text size overlap, s ≠ "") ∧
    (chunk_text text size overlap).length ≤ text.data.length := by
  constructor
  · intro s hs
    exact ne_empty_of_mem_chunkLoop text.data size overlap text.data.length 0 s hs
  · exact chunkLoop_length_le text.data size overlap text.data.length 0

theorem chunk_text_no_validation_witness :
    ("ab" : String) ≠ "" ∧ (chunk_text "abcd" 2 5).length ≤ "abcd".data.length := by
  have h := chunk_text_no_validation "abcd" 2 5
  exact ⟨h.1 "ab" (by decide), h.2⟩

/-- On a text free of full stops, `rfind` reports no hit. -/
theorem rfindDot_of_no_dot (cs : List Char) (hdot : ∀ c ∈ cs, c ≠ '.')
    (s e : Nat) : rfindDot cs s e = -1 := by
  unfold rfindDot
  have hall : ∀ i : Nat, (cs.getD i ' ' == '.') = false := by
    intro i
    rw [List.getD_eq_getElem?_getD]
    cases h : cs[i]? with
    | none => simp
    | some c =>
      have hc : c ∈ cs := List.getElem?_mem h
      simp [hdot c hc]
  generalize (List.range e).drop s = l
  induction l with
  | nil => rfl
  | cons i l ih =>
    rw [List.foldl_cons, if_neg (by rw [hall i]; exact Bool.false_ne_true)]
    exact ih

/-- On a text free of full stops (with a positive window size), the
sentence-boundary adjustment never fires: the window end is the raw
character-count end. -/
theorem chunkEndAdj_no_dot (cs : List Char) (size : Int) (hsize : 1 ≤ size)
    (hdot : ∀ c ∈ cs, c ≠ '.') (start : Nat) :
    chunkEndAdj cs size start = (chunkEndRaw cs.length size start).toNat := by
  unfold chunkEndAdj
  have hf : 0 ≤ Int.fdiv size 2 := Int.fdiv_nonneg (by omega) (by omega)
  split
  · rw [rfindDot_of_no_dot cs hdot, if_neg (by omega)]
  · rfl

/-- Stripping leaves a list free of whitespace unchanged. -/
theorem pyStrip_eq_self (l : List Char) (h : ∀ c ∈ l, pySpace c = false) :
    pyStrip l = l := by
  have haux : ∀ (m : List Char), (∀ c ∈ m, pySpace c = false) → m.dropWhile pySpace = m := by
    intro m hm
    cases m with
    | nil => rfl
    | cons c t =>
      rw [List.dropWhile_cons]
      simp [hm c (List.mem_cons_self c t)]
  unfold pyStrip
  rw [haux l h, haux l.reverse (fun c hc => h c (List.mem_reverse.mp hc)),
    List.reverse_reverse]

/-- On a text free of full stops and whitespace, a window slice is the
raw character window. -/
theorem chunkSlice_plain (cs : List Char) (size : Int) (hsize : 1 ≤ size)
    (hdot : ∀ c ∈ cs, c ≠ '.') (hsp : ∀ c ∈ cs, pySpace c = false) (start : Nat) :
    chunkSlice cs size start =
      (cs.drop start).take ((chunkEndRaw cs.length size start).toNat - start) := by
  unfold chunkSlice
  rw [chunkEndAdj_no_dot cs size hsize hdot start]
  apply pyStrip_eq_self
  intro c hc
  exact hsp c (List.mem_of_mem_drop (List.mem_of_mem_take hc))

/-- Inside the text (with a positive window size), the raw window slice
is nonempty. -/
theorem chunkSlice_raw_ne_nil (cs : List Char) (size : Int) (hsize : 1 ≤ size)
    (start : Nat) (hstart : start < cs.length) :
    (cs.drop start).take ((chunkEndRaw cs.length size start).toNat - start) ≠ [] := by
  apply List.length_pos.mp
  rw [List.length_take, List.length_drop]
  have : start + 1 ≤ (chunkEndRaw cs.length size start).toNat := by
    unfold chunkEndRaw
    omega
  omega

/-- On a text free of full stops and whitespace, the chunk loop emits the
raw window at every start position it visits: the chunk list is the image
of the `plainChunkStarts` recurrence. -/
theorem chunkLoop_plain (cs : List Char) (size overlap : Int) (hsize : 1 ≤ size)
    (hdot : ∀ c ∈ cs, c ≠ '.') (hsp : ∀ c ∈ cs, pySpace c = false) :
    ∀ fuel start, chunkLoop cs size overlap fuel start =
      (plainChunkStarts cs.length size overlap fuel start).map
        (fun s => String.mk
          ((cs.drop s).take ((chunkEndRaw cs.length size s).toNat - s))) := by
  intro fuel
  induction fuel with
  | zero => intro start; rfl
  | succ fuel ih =>
    intro start
    simp only [chunkLoop, plainChunkStarts]
    by_cases hlt : start < cs.length
    · rw [if_pos hlt, if_pos hlt]
      rw [chunkSlice_plain cs size hsize hdot hsp start]
      rw [if_neg (chunkSlice_raw_ne_nil cs size hsize start hlt)]
      rw [List.map_cons, List.singleton_append]
      congr 1
      rw [ih (nextStart cs size overlap start)]
      have hnext : nextStart cs size overlap start = plainNext cs.length size overlap start := by
        unfold nextStart plainNext
        rw [chunkEndAdj_no_dot cs size hsize hdot start]
      rw [hnext]
    · rw [if_neg hlt, if_neg hlt]
      rfl

/-- On any 1000-character text free of full stops and whitespace, the
chunker with the default configuration emits the windows starting at
0, 462 and 924, and then — because the advance `end - overlap` is not
clamped once the window reaches the end of the text — re-emits the final
window from starts 950 through 999, for 53 chunks in total. -/
theorem chunk_text_plain_1000 (cs : List Char) (hlen : cs.length = 1000)
    (hdot : ∀ c ∈ cs, c ≠ '.') (hsp : ∀ c ∈ cs, pySpace c = false) :
    chunk_text (String.mk cs) 512 50 =
      ([0, 462, 924] ++ List.range' 950 50).map
        (fun s => String.mk ((cs.drop s).take ((chunkEndRaw 1000 512 s).toNat - s))) := by
  show chunkLoop cs 512 50 cs.length 0 = _
  rw [chunkLoop_plain cs 512 50 (by omega) hdot hsp cs.length 0, hlen]
  have hstarts : plainChunkStarts 1000 512 50 1000 0 = [0, 462, 924] ++ List.range' 950 50 := by
    decide
  rw [hstarts]

/-- C8 counterexample: the 1000-character text of 1000 letters `a`
(no full stop, no whitespace) is chunked with `target_size = 512`,
`overlap = 50` into 53 chunks, not 2: after the windows at 0, 462 and
924 the loop keeps re-emitting the final window because its advance
`end - overlap = 950` exceeds `start + 1` only once, after which the
start creeps from 950 to 999 one character at a time. -/
theorem chunk_text_1000_counterexample :
    (chunk_text (String.mk (List.replicate 1000 'a')) 512 50).length = 53 ∧
    (53 : Nat) ≠ 2 := by
  constructor
  · rw [chunk_text_plain_1000 (List.replicate 1000 'a') (by rw [List.length_replicate])
      (fun c hc => by rw [List.eq_of_mem_replicate hc]; decide)
      (fun c hc => by rw [List.eq_of_mem_replicate hc]; decide)]
    rw [List.length_map, List.length_append, List.length_range']
    decide
  · decide

/-- C8 amended: for every 1000-character text containing no full stop and
no whitespace (so that neither the sentence-boundary adjustment nor the
whitespace stripping perturbs the windows), chunking with
`target_size = 512` and `overlap = 50` yields exactly 53 chunks — the
windows starting at 0, 462 and 924 followed by the re-emitted tail
windows starting at 950 through 999 — the second chunk starts at
character 462 (at or before 512 - 50 = 462) and spans 512 characters,
and no chunk is empty. -/
theorem chunk_text_1000_amended (cs : List Char) (hlen : cs.length = 1000)
    (hdot : ∀ c ∈ cs, c ≠ '.') (hsp : ∀ c ∈ cs, pySpace c = false) :
    chunk_text (String.mk cs) 512 50 =
      ([0, 462, 924] ++ List.range' 950 50).map
        (fun s => String.mk ((cs.drop s).take ((chunkEndRaw 1000 512 s).toNat - s))) ∧
    (chunk_text (String.mk cs) 512 50).length = 53 ∧
    (chunk_text (String.mk cs) 512 50)[1]? =
      some (String.mk ((cs.drop 462).take 512)) ∧
    ∀ s ∈ chunk_text (String.mk cs) 512 50, s ≠ "" := by
  have hmain := chunk_text_plain_1000 cs hlen hdot hsp
  refine ⟨hmain, ?_, ?_, ?_⟩
  · rw [hmain]
    rw [List.length_map, List.length_append, List.length_range']
    decide
  · rw [hmain, List.getElem?_map]
    have h1 : ([0, 462, 924] ++ List.range' 950 50)[1]? = some 462 := by decide
    rw [h1]
    have h462 : (chunkEndRaw 1000 512 462).toNat - 462 = 512 := by decide
    simp [h462]
  · intro s hs
    exact ne_empty_of_mem_chunkLoop cs 512 50 cs.length 0 s hs

theorem chunk_text_1000_amended_witness :
    chunk_text (String.mk (List.replicate 1000 'b')) 512 50 =
      ([0, 462, 924] ++ List.range' 950 50).map
        (fun s => String.mk (((List.replicate 1000 'b').drop s).take
          ((chunkEndRaw 1000 512 s).toNat - s))) ∧
    (chunk_text (String.mk (List.replicate 1000 'b')) 512 50).length = 53 ∧
    (chunk_text (String.mk (List.replicate 1000 'b')) 512 50)[1]? =
      some (String.mk (((List.replicate 1000 'b').drop 462).take 512)) ∧
    ∀ s ∈ chunk_text (String.mk (List.replicate 1000 'b')) 512 50, s ≠ "" := by
  exact chunk_text_1000_amended (List.replicate 1000 'b') (by rw [List.length_replicate])
    (fun c hc => by rw [List.eq_of_mem_replicate hc]; decide)
    (fun c hc => by rw [List.eq_of_mem_replicate hc]; decide)

/-- C3: for every text and every entity-count oracle, classification is
total and deterministic (it is a function) and returns one of the three
tiers; and whenever any Personal-tier pattern matches the text, the
result is Personal, even when Business-tier patterns also match and
regardless of where in the text each match occurs (the Personal loop of
`classify_privacy_tier` runs first and returns immediately). -/
theorem classify_total_personal_first (entCount : String → Nat) (text : String) :
    (classify_privacy_tier entCount text = PrivacyTier.PERSONAL ∨
     classify_privacy_tier entCount text = PrivacyTier.BUSINESS ∨
     classify_privacy_tier entCount text = PrivacyTier.PUBLIC) ∧
    (personalMatch text = true →
      classify_privacy_tier entCount text = PrivacyTier.PERSONAL) := by
  constructor
  · unfold classify_privacy_tier
    by_cases h1 : personalMatch text
    · rw [if_pos h1]; exact Or.inl rfl
    · rw [if_neg h1]
      by_cases h2 : businessMatch text
      · rw [if_pos h2]; exact Or.inr (Or.inl rfl)
      · rw [if_neg h2]
        by_cases h3 : entCount (pyTakeStr text 1000) > 5
        · rw [if_pos h3]; exact Or.inr (Or.inl rfl)
        · rw [if_neg h3]; exact Or.inr (Or.inr rfl)
  · intro h
    unfold classify_privacy_tier
    rw [if_pos h]

theorem classify_total_personal_first_witness :
    (classify_privacy_tier (fun _ => 0) "my secret plan" = PrivacyTier.PERSONAL ∨
     classify_privacy_tier (fun _ => 0) "my secret plan" = PrivacyTier.BUSINESS ∨
     classify_privacy_tier (fun _ => 0) "my secret plan" = PrivacyTier.PUBLIC) ∧
    classify_privacy_tier (fun _ => 0) "my secret plan" = PrivacyTier.PERSONAL := by
  have h := classify_total_personal_first (fun _ => 0) "my secret plan"
  exact ⟨h.1, h.2 (by decide)⟩

/-- C1 counterexample: the text
"This contract is confidential and includes client revenue details"
classifies as Personal, not Business: the word "confidential" matches the
Personal-tier credential-phrase pattern
`\bpassword|secret|private key|confidential\b`, which is checked before
any Business-tier pattern. -/
theorem classify_scenarios_counterexample :
    classify_privacy_tier (fun _ => 0)
      "This contract is confidential and includes client revenue details" =
      PrivacyTier.PERSONAL ∧
    PrivacyTier.PERSONAL ≠ PrivacyTier.BUSINESS := by
  exact ⟨by decide, by decide⟩

/-- C1 amended: classifying "Contact me at alice@example.com" yields
Personal (email pattern); classifying
"This contract is confidential and includes client revenue details" also
yields Personal — not Business as claimed — because "confidential"
matches a Personal-tier pattern before the Business patterns are
consulted; classifying "The quick brown fox jumps over the lazy dog"
yields Public, provided the external entity counter finds at most 5
sensitive entities in it (on that sentence spaCy finds none). -/
theorem classify_scenarios_amended (entCount : String → Nat)
    (h : entCount (pyTakeStr "The quick brown fox jumps over the lazy dog" 1000) ≤ 5) :
    classify_privacy_tier entCount "Contact me at alice@example.com" =
      PrivacyTier.PERSONAL ∧
    classify_privacy_tier entCount
      "This contract is confidential and includes client revenue details" =
      PrivacyTier.PERSONAL ∧
    classify_privacy_tier entCount "The quick brown fox jumps over the lazy dog" =
      PrivacyTier.PUBLIC := by
  refine ⟨?_, ?_, ?_⟩
  · unfold classify_privacy_tier
    rw [if_pos (by decide)]
  · unfold classify_privacy_tier
    rw [if_pos (by decide)]
  · unfold classify_privacy_tier
    rw [if_neg (by decide), if_neg (by decide), if_neg (by omega)]

theorem classify_scenarios_amended_witness :
    classify_privacy_tier (fun _ => 0) "Contact me at alice@example.com" =
      PrivacyTier.PERSONAL ∧
    classify_privacy_tier (fun _ => 0)
      "This contract is confidential and includes client revenue details" =
      PrivacyTier.PERSONAL ∧
    classify_privacy_tier (fun _ => 0) "The quick brown fox jumps over the lazy dog" =
      PrivacyTier.PUBLIC := by
  exact classify_scenarios_amended (fun _ => 0) (by decide)

/-- C10: for every text, the extracted link list of
`_extract_obsidian_links` holds each distinct link target at most once
(the `set` conversion collapses duplicate occurrences), and it holds
exactly the targets found by the `findall` scan of the `[[...]]`
pattern.  The iteration order of a Python `set` is unspecified, so no
order is asserted. -/
theorem extract_obsidian_links_dedup (text : String) :
    (extract_obsidian_links text).Nodup ∧
    ∀ s, s ∈ extract_obsidian_links text ↔ s ∈ findLinks text.data := by
  constructor
  · exact List.nodup_dedup _
  · intro s
    exact List.mem_dedup

/-- The key-presence test of the upsert agrees with key-list
membership. -/
theorem hasKey_iff (l : List (String × ChunkEntry)) (k : String) :
    (l.any (fun p => p.1 == k)) = true ↔ k ∈ l.map Prod.fst := by
  rw [List.any_eq_true]
  constructor
  · rintro ⟨p, hp, hpk⟩
    rw [beq_iff_eq] at hpk
    exact hpk ▸ List.mem_map_of_mem Prod.fst hp
  · intro hk
    rcases List.mem_map.mp hk with ⟨p, hp, hpk⟩
    exact ⟨p, hp, by rw [beq_iff_eq]; exact hpk⟩

/-- Upserting an already-present chunk identifier leaves the key list of
the collection unchanged: the entry is replaced in place. -/
theorem upsertEntry_keys_of_mem (l : List (String × ChunkEntry)) (k : String)
    (v : ChunkEntry) (h : k ∈ l.map Prod.fst) :
    (upsertEntry l k v).map Prod.fst = l.map Prod.fst := by
  unfold upsertEntry
  rw [if_pos ((hasKey_iff l k).mpr h), List.map_map]
  apply List.map_congr_left
  intro p _
  by_cases hpk : p.1 = k
  · simp [Function.comp, hpk]
  · simp [Function.comp, hpk]

/-- Upserting an already-present chunk identifier replaces the prior
entry rather than adding a duplicate: the collection size is
unchanged. -/
theorem upsertEntry_length_of_mem (l : List (String × ChunkEntry)) (k : String)
    (v : ChunkEntry) (h : k ∈ l.map Prod.fst) :
    (upsertEntry l k v).length = l.length := by
  unfold upsertEntry
  rw [if_pos ((hasKey_iff l k).mpr h), List.length_map]

/-- After an upsert the chunk identifier is present. -/
theorem mem_keys_upsertEntry (l : List (String × ChunkEntry)) (k : String)
    (v : ChunkEntry) : k ∈ (upsertEntry l k v).map Prod.fst := by
  by_cases h : k ∈ l.map Prod.fst
  · rw [upsertEntry_keys_of_mem l k v h]; exact h
  · unfold upsertEntry
    rw [if_neg (fun hc => h ((hasKey_iff l k).mp hc)), List.map_append]
    exact List.mem_append_right _ (by simp)

/-- An upsert never removes a present chunk identifier. -/
theorem mem_keys_upsertEntry_of_mem (l : List (String × ChunkEntry)) (k : String)
    (v : ChunkEntry) (a : String) (ha : a ∈ l.map Prod.fst) :
    a ∈ (upsertEntry l k v).map Prod.fst := by
  by_cases h : k ∈ l.map Prod.fst
  · rw [upsertEntry_keys_of_mem l k v h]; exact ha
  · unfold upsertEntry
    rw [if_neg (fun hc => h ((hasKey_iff l k).mp hc)), List.map_append]
    exact List.mem_append_left _ ha

theorem collAdd_cons (l : List (String × ChunkEntry)) (p : String × ChunkEntry)
    (items : List (String × ChunkEntry)) :
    collAdd l (p :: items) = collAdd (upsertEntry l p.1 p.2) items := rfl

/-- Storing a batch never removes a present chunk identifier. -/
theorem mem_keys_collAdd_of_mem :
    ∀ (items l : List (String × ChunkEntry)) (a : String),
      a ∈ l.map Prod.fst → a ∈ (collAdd l items).map Prod.fst := by
  intro items
  induction items with
  | nil => intro l a ha; exact ha
  | cons p rest ih =>
    intro l a ha
    rw [collAdd_cons]
    exact ih _ a (mem_keys_upsertEntry_of_mem l p.1 p.2 a ha)

/-- After storing a batch, every identifier of the batch is present. -/
theorem mem_keys_collAdd_of_mem_items :
    ∀ (items l : List (String × ChunkEntry)) (a : String),
      a ∈ items.map Prod.fst → a ∈ (collAdd l items).map Prod.fst := by
  intro items
  induction items with
  | nil => intro l a ha; simp at ha
  | cons p rest ih =>
    intro l a ha
    rw [List.map_cons, List.mem_cons] at ha
    rw [collAdd_cons]
    rcases ha with ha | ha
    · subst ha
      exact mem_keys_collAdd_of_mem rest _ p.1 (mem_keys_upsertEntry l p.1 p.2)
    · exact ih _ a ha

/-- Storing a batch whose identifiers are all already present leaves the
collection size unchanged: every store is a replacement. -/
theorem collAdd_length_of_mem :
    ∀ (items l : List (String × ChunkEntry)),
      (∀ a ∈ items.map Prod.fst, a ∈ l.map Prod.fst) →
      (collAdd l items).length = l.length := by
  intro items
  induction items with
  | nil => intro l _; rfl
  | cons p rest ih =>
    intro l h
    have hp : p.1 ∈ l.map Prod.fst :=
      h p.1 (by rw [List.map_cons]; exact List.mem_cons_self _ _)
    rw [collAdd_cons]
    calc (collAdd (upsertEntry l p.1 p.2) rest).length
        = (upsertEntry l p.1 p.2).length := by
          apply ih
          intro a ha
          exact mem_keys_upsertEntry_of_mem l p.1 p.2 a
            (h a (by rw [List.map_cons]; exact List.mem_cons_of_mem _ ha))
      _ = l.length := upsertEntry_length_of_mem l p.1 p.2 hp

/-- The identifiers of the stored batch are exactly the chunk
identifiers. -/
theorem ingest_items_keys (encode : String → List Int)
    (file_path content_hash : String) (chunks : List String) :
    ((chunkIds content_hash chunks.length).zip
      (ingestEntries encode file_path content_hash chunks)).map Prod.fst =
      chunkIds content_hash chunks.length := by
  apply List.map_fst_zip
  unfold chunkIds ingestEntries
  rw [List.length_map, List.length_map]

/-- C2: ingesting identical document content twice — possibly under a
different source path the second time — leaves every per-tier chunk count
of the store equal to what the single ingestion produced: the second run
recomputes the same content hash, tier and chunk identifiers, and the
upsert of the store replaces each already-present identifier instead of
adding a duplicate (the second conjunct is that replacement law). -/
theorem ingest_idempotent_count (hash : String → String) (entCount : String → Nat)
    (encode : String → List Int) (size overlap : Int) (store : Store)
    (p1 p2 text : String) (v1 v2 : Option String) :
    (∀ t : PrivacyTier,
      ((process_document hash entCount encode size overlap
          (process_document hash entCount encode size overlap store p1 text v1).2
          p2 text v2).2 t).length =
        ((process_document hash entCount encode size overlap store p1 text v1).2 t).length) ∧
    (∀ (l : List (String × ChunkEntry)) (k : String) (v : ChunkEntry),
      k ∈ l.map Prod.fst → (upsertEntry l k v).length = l.length) := by
  constructor
  · intro t
    show (if t = classify_privacy_tier entCount text then
        collAdd ((process_document hash entCount encode size overlap store p1 text v1).2 t) _
      else (process_document hash entCount encode size overlap store p1 text v1).2 t).length = _
    by_cases ht : t = classify_privacy_tier entCount text
    · rw [if_pos ht]
      apply collAdd_length_of_mem
      intro a ha
      rw [ingest_items_keys] at ha
      show a ∈ ((if t = classify_privacy_tier entCount text then
          collAdd (store t) _ else store t).map Prod.fst)
      rw [if_pos ht]
      apply mem_keys_collAdd_of_mem_items
      rw [ingest_items_keys]
      exact ha
    · rw [if_neg ht]
  · intro l k v h
    exact upsertEntry_length_of_mem l k v h

theorem ingest_idempotent_count_witness :
    ((process_document (fun s => s) (fun _ => 0) (fun _ => []) 512 50
        (process_document (fun s => s) (fun _ => 0) (fun _ => []) 512 50
          (fun _ => []) "a.md" "hello" none).2
        "b.md" "hello" none).2 PrivacyTier.PUBLIC).length =
      ((process_document (fun s => s) (fun _ => 0) (fun _ => []) 512 50
        (fun _ => []) "a.md" "hello" none).2 PrivacyTier.PUBLIC).length ∧
    (upsertEntry [("k", sampleEntry0)] "k" sampleEntry1).length =
      ([("k", sampleEntry0)] : List (String × ChunkEntry)).length := by
  have h := ingest_idempotent_count (fun s => s) (fun _ => 0) (fun _ => []) 512 50
    (fun _ => []) "a.md" "b.md" "hello" none none
  exact ⟨h.1 PrivacyTier.PUBLIC, h.2 _ "k" _ (by decide)⟩

/-- C4: when text extraction yields the empty string, ingestion completes
normally: the returned DocumentMetadata has `chunk_count = 0`, and the
store is unchanged — no chunk record is persisted to any tier collection
(chunking the empty text yields no chunks, so the batch handed to the
store is empty). -/
theorem ingest_empty_text (hash : String → String) (entCount : String → Nat)
    (encode : String → List Int) (size overlap : Int) (store : Store)
    (path : String) (vault : Option String) :
    (process_document hash entCount encode size overlap store path "" vault).1.chunk_count = 0 ∧
    (process_document hash entCount encode size overlap store path "" vault).2 = store := by
  constructor
  · rfl
  · funext t
    show (if t = classify_privacy_tier entCount "" then
        collAdd (store t) _ else store t) = store t
    by_cases ht : t = classify_privacy_tier entCount ""
    · rw [if_pos ht]
      rfl
    · rw [if_neg ht]

/-- Membership in a stable insertion. -/
theorem mem_insertByDist (r : SearchResult) :
    ∀ (l : List SearchResult) (a : SearchResult),
      a ∈ insertByDist r l ↔ a = r ∨ a ∈ l := by
  intro l
  induction l with
  | nil => intro a; simp [insertByDist]
  | cons x xs ih =>
    intro a
    unfold insertByDist
    split
    · rw [List.mem_cons, ih a, List.mem_cons]
      tauto
    · exact List.mem_cons

/-- Stable insertion preserves ascending distance order. -/
theorem pairwise_insertByDist (r : SearchResult) :
    ∀ (l : List SearchResult),
      l.Pairwise (fun a b => a.distance ≤ b.distance) →
      (insertByDist r l).Pairwise (fun a b => a.distance ≤ b.distance) := by
  intro l
  induction l with
  | nil => intro _; exact List.pairwise_singleton _ _
  | cons x xs ih =>
    intro h
    rw [List.pairwise_cons] at h
    obtain ⟨hx, hxs⟩ := h
    unfold insertByDist
    split
    · next hlt =>
      rw [List.pairwise_cons]
      refine ⟨?_, ih hxs⟩
      intro a ha
      rcases (mem_insertByDist r xs a).mp ha with rfl | ha
      · omega
      · exact hx a ha
    · next hge =>
      rw [List.pairwise_cons]
      refine ⟨?_, List.pairwise_cons.mpr ⟨hx, hxs⟩⟩
      intro a ha
      rcases List.mem_cons.mp ha with rfl | ha
      · omega
      · have := hx a ha
        omega

/-- The modelled Python sort returns an ascending-distance list. -/
theorem pairwise_pySort :
    ∀ (l : List SearchResult),
      (pySort l).Pairwise (fun a b => a.distance ≤ b.distance) := by
  intro l
  induction l with
  | nil => simp [pySort]
  | cons r rs ih => exact pairwise_insertByDist r (pySort rs) ih

/-- Stability of one insertion, expressed per distance value: restricted
to any fixed distance, inserting keeps the new element exactly at the
end of its distance class, leaving the prior order untouched. -/
theorem filter_insertByDist (r : SearchResult) (d : Int) :
    ∀ (l : List SearchResult),
      (insertByDist r l).filter (fun x => x.distance == d) =
        if r.distance == d then r :: l.filter (fun x => x.distance == d)
        else l.filter (fun x => x.distance == d) := by
  intro l
  induction l with
  | nil =>
    show List.filter (fun x => x.distance == d) [r] = _
    rw [List.filter_cons]
  | cons x xs ih =>
    unfold insertByDist
    split
    · next hlt =>
      by_cases hrd : (r.distance == d) = true
      · have hxd : (x.distance == d) = false := by
          rw [beq_iff_eq] at hrd
          rw [beq_eq_false_iff_ne]
          omega
        simp [List.filter_cons, ih, hrd, hxd]
      · simp [List.filter_cons, ih, hrd]
    · next hge =>
      by_cases hrd : (r.distance == d) = true
      · simp [List.filter_cons, hrd]
      · simp [List.filter_cons, hrd]

/-- Stability of the modelled Python sort: for every distance value, the
subsequence of results at that distance is exactly the subsequence of the
unsorted input at that distance, in the same order — ties keep their
original relative order. -/
theorem filter_pySort (d : Int) :
    ∀ (l : List SearchResult),
      (pySort l).filter (fun x => x.distance == d) =
        l.filter (fun x => x.distance == d) := by
  intro l
  induction l with
  | nil => rfl
  | cons r rs ih =>
    show (insertByDist r (pySort rs)).filter _ = _
    rw [filter_insertByDist r d (pySort rs), List.filter_cons]
    by_cases hr : (r.distance == d) = true
    · rw [if_pos hr, if_pos hr, ih]
    · rw [if_neg hr, if_neg hr, ih]

/-- The fold of appends over the target tiers is the concatenation of the
per-tier result lists. -/
theorem foldl_append_eq_flatten (ts : List PrivacyTier)
    (f : PrivacyTier → List SearchResult) :
    ∀ init, ts.foldl (fun acc t => acc ++ f t) init = init ++ (ts.map f).flatten := by
  induction ts with
  | nil => intro init; simp
  | cons t ts ih =>
    intro init
    rw [List.foldl_cons, ih, List.map_cons, List.flatten_cons, List.append_assoc]

/-- C6: for every query, tier filter and nonnegative limit,
`semantic_search` equals the concatenation of the per-tier result lists,
stably sorted by ascending distance and truncated to `limit`: the result
is the slice of the sorted pool; it is ascending in distance; ties keep
the per-tier concatenation order (per distance value the sorted pool
restricts to exactly the pool subsequence); at most `limit` results are
returned; and every per-tier request is capped at the hard ceiling of
100 results regardless of the requested limit
(`n_results = min(limit, 100)`). -/
theorem search_merge (encode : String → List Int)
    (colls : PrivacyTier → List Int → List SearchResult)
    (query : String) (filt : Option PrivacyTier) (limit : Int) (hlim : 0 ≤ limit) :
    semantic_search encode colls query filt limit =
      pySliceTo (pySort (searchPool encode colls query filt limit)) limit ∧
    (semantic_search encode colls query filt limit).Pairwise
      (fun a b => a.distance ≤ b.distance) ∧
    (∀ d : Int,
      (pySort (searchPool encode colls query filt limit)).filter
          (fun x => x.distance == d) =
        (searchPool encode colls query filt limit).filter
          (fun x => x.distance == d)) ∧
    (semantic_search encode colls query filt limit).length ≤ limit.toNat ∧
    (∀ t, (collQuery (colls t (encode query)) (min limit 100)).length ≤ 100) := by
  have heq : semantic_search encode colls query filt limit =
      pySliceTo (pySort (searchPool encode colls query filt limit)) limit := by
    unfold semantic_search searchPool
    rw [foldl_append_eq_flatten, List.nil_append]
  refine ⟨heq, ?_, fun d => filter_pySort d _, ?_, ?_⟩
  · rw [heq]
    unfold pySliceTo
    rw [if_pos hlim]
    exact List.Pairwise.sublist (List.take_sublist _ _) (pairwise_pySort _)
  · rw [heq]
    unfold pySliceTo
    rw [if_pos hlim]
    exact List.length_take_le _ _
  · intro t
    unfold collQuery
    have h1 : (min limit 100).toNat ≤ 100 := by omega
    exact le_trans (List.length_take_le _ _) h1

theorem search_merge_witness :
    semantic_search (fun _ => []) (fun _ _ => [sampleResult]) "q" none 5 =
      pySliceTo (pySort (searchPool (fun _ => []) (fun _ _ => [sampleResult]) "q" none 5)) 5 ∧
    (semantic_search (fun _ => []) (fun _ _ => [sampleResult]) "q" none 5).Pairwise
      (fun a b => a.distance ≤ b.distance) ∧
    (pySort (searchPool (fun _ => []) (fun _ _ => [sampleResult]) "q" none 5)).filter
        (fun x => x.distance == (3 : Int)) =
      (searchPool (fun _ => []) (fun _ _ => [sampleResult]) "q" none 5).filter
        (fun x => x.distance == (3 : Int)) ∧
    (semantic_search (fun _ => []) (fun _ _ => [sampleResult]) "q" none 5).length ≤
      (5 : Int).toNat ∧
    (collQuery ((fun (_ : PrivacyTier) (_ : List Int) => [sampleResult])
        PrivacyTier.PUBLIC ((fun (_ : String) => ([] : List Int)) "q")) (min 5 100)).length ≤ 100 := by
  have h := search_merge (fun _ => []) (fun _ _ => [sampleResult]) "q" none 5 (by decide)
  exact ⟨h.1, h.2.1, h.2.2.1 3, h.2.2.2.1, h.2.2.2.2 PrivacyTier.PUBLIC⟩

/-- C7 counterexample: a search whose query text is empty is not rejected
— no InvalidQuery error exists in `semantic_search` — the empty query is
embedded and every tier collection is queried exactly as for any other
query, here returning the stored result from each of the three tiers. -/
theorem search_empty_query_counterexample :
    semantic_search (fun _ => [0]) (fun _ _ => [sampleResult]) "" none 5 =
      [sampleResult, sampleResult, sampleResult] := by
  decide

/-- C7 amended: `semantic_search` performs no input validation and raises
no InvalidQuery error: an empty query text is embedded and searched like
any other (the counterexample exhibits an empty-query search returning
results), and a non-positive limit is not rejected either — it flows into
`n_results = min(limit, 100)`, making every per-tier request empty, so
the search returns the empty result list instead of failing. -/
theorem search_no_validation (encode : String → List Int)
    (colls : PrivacyTier → List Int → List SearchResult)
    (query : String) (filt : Option PrivacyTier) (limit : Int) (h : limit ≤ 0) :
    semantic_search encode colls query filt limit = [] := by
  have hcoll : ∀ t, collQuery (colls t (encode query)) (min limit 100) = [] := by
    intro t
    unfold collQuery
    have hz : (min limit 100).toNat = 0 := by omega
    rw [hz, List.take_zero]
  unfold semantic_search
  cases filt with
  | none =>
    simp only [tiersToSearch, List.foldl_cons, List.foldl_nil, hcoll,
      List.append_nil, List.nil_append]
    show pySliceTo (pySort []) limit = []
    unfold pySliceTo pySort
    split <;> exact List.take_nil
  | some t =>
    simp only [tiersToSearch, List.foldl_cons, List.foldl_nil, hcoll,
      List.append_nil, List.nil_append]
    show pySliceTo (pySort []) limit = []
    unfold pySliceTo pySort
    split <;> exact List.take_nil

theorem search_no_validation_witness :
    semantic_search (fun _ => [0]) (fun _ _ => [sampleResult]) "" none 0 = [] := by
  exact search_no_validation (fun _ => [0]) (fun _ _ => [sampleResult]) "" none 0 (by decide)
